import Mathlib

/-!
Shallow embedding of the HCI-Project cooking-assistant backend
(src/backend/state.py, src/backend/app.py, src/backend/extractors.py)
and proofs of the frozen claims about it.

Python machine model used throughout:
* Python `int` is unbounded, embedded as `ℤ` (counts that are regex-digit
  captures are embedded as `ℕ`).
* `time.time()` instants are embedded as `ℚ`; Python `int(x)` truncates
  toward zero, embedded as `pyInt`.
* Python `dict` (insertion ordered, key overwrite in place) is embedded as
  an association list with `dictInsert`.
* Python strings are Lean `String`s; `sorted` on strings compares code
  points lexicographically, embedded as `pyStrLt` on the code points.
-/

/-- Python `int(q)` on a rational: truncation toward zero.
For a reduced rational `num/den` (`den > 0`) this is `num.tdiv den`. -/
def pyInt (q : ℚ) : ℤ := q.num.tdiv q.den

/-! ### Timer (src/backend/state.py, class Timer) -/

/-- `Timer` dataclass from state.py: id, label, seconds_total, started_at,
status (default "running"). -/
structure Timer where
  id : String
  label : String
  seconds_total : ℤ
  started_at : ℚ
  status : String := "running"
deriving DecidableEq

/-- `Timer.seconds_remaining` from state.py:
if status is not "running" return 0, else `max(0, seconds_total - int(elapsed))`
where `elapsed = now - started_at`. -/
def secondsRemaining (t : Timer) (now : ℚ) : ℤ :=
  if t.status ≠ "running" then 0
  else max 0 (t.seconds_total - pyInt (now - t.started_at))

/-- `Timer.is_done` from state.py: `seconds_remaining == 0`. -/
def isDone (t : Timer) (now : ℚ) : Prop := secondsRemaining t now = 0

instance (t : Timer) (now : ℚ) : Decidable (isDone t now) := by
  unfold isDone; infer_instance

/-- `CookingSession.check_timers` from state.py, on the session's timer
values in dict order: every timer that is "running" and done is flipped to
"completed"; the first component is the updated timer list, the second the
list of timers flipped by this call (the Python `completed` list). -/
def checkTimers (now : ℚ) : List Timer → List Timer × List Timer
  | [] => ([], [])
  | tm :: rest =>
    let r := checkTimers now rest
    if tm.status = "running" ∧ isDone tm now then
      ({ tm with status := "completed" } :: r.1, { tm with status := "completed" } :: r.2)
    else (tm :: r.1, r.2)

/-- The effect of one `check_timers` sweep on a single timer. -/
def sweepOne (now : ℚ) (tm : Timer) : Timer :=
  if tm.status = "running" ∧ isDone tm now then { tm with status := "completed" } else tm

/-- Whether a `check_timers` sweep at instant `now` flips (and hence
returns in its completed list) the timer at position `i` of the session's
timer list. -/
def flipsAt (ts : List Timer) (now : ℚ) (i : ℕ) : Prop :=
  match ts.get? i with
  | some tm => tm.status = "running" ∧ isDone tm now
  | none => False

instance (ts : List Timer) (now : ℚ) (i : ℕ) : Decidable (flipsAt ts now i) := by
  unfold flipsAt; cases ts.get? i <;> infer_instance

/-- Iterated sweeps: run `check_timers` once per instant in `times`,
threading the updated timer list. -/
def runSweeps (ts : List Timer) : List ℚ → List Timer
  | [] => ts
  | now :: rest => runSweeps (checkTimers now ts).1 rest

/-! ### Timer-id strings (src/backend/state.py, CookingSession.add_timer) -/

/-- Big-endian decimal digits with explicit fuel (structural recursion so
the kernel can evaluate it); `decDigitsAux n fuel` for `n ≤ fuel` computes
the little-endian digits of `n`. -/
def decDigitsAux : ℕ → ℕ → List ℕ
  | _, 0 => []
  | 0, _ + 1 => []
  | n + 1, fuel + 1 => (n + 1) % 10 :: decDigitsAux ((n + 1) / 10) fuel

/-- Big-endian decimal digits of `n`, with `0` rendered as `[0]`
(matching Python `str(0) = "0"`). -/
def decDigitsBE (n : ℕ) : List ℕ :=
  if n = 0 then [0] else (decDigitsAux n n).reverse

/-- Python `str` of a nonnegative integer. -/
def natStr (n : ℕ) : String := String.mk ((decDigitsBE n).map Nat.digitChar)

/-- Python `str` of an arbitrary integer. -/
def intStr (n : ℤ) : String := if n < 0 then "-" ++ natStr (-n).toNat else natStr n.toNat

/-- `int(time.time() * 1000)` at instant `now`: the millisecond count used
to mint timer ids in `add_timer`. -/
def msOf (now : ℚ) : ℤ := pyInt (now * 1000)

/-- The id `f"timer_{int(time.time() * 1000)}"` minted by `add_timer`. -/
def timerIdOf (now : ℚ) : String := "timer_" ++ intStr (msOf now)

/-- Python dict insertion on an association list: overwrite the first
binding of the key in place, else append at the end. -/
def dictInsert {α : Type} [DecidableEq α] {β : Type} (k : α) (v : β) :
    List (α × β) → List (α × β)
  | [] => [(k, v)]
  | (k', v') :: rest =>
    if k' = k then (k, v) :: rest else (k', v') :: dictInsert k v rest

/-- Lexicographic comparison of code-point sequences; `Python a < b` on
strings. -/
def lexLt : List Char → List Char → Bool
  | [], [] => false
  | [], _ :: _ => true
  | _ :: _, [] => false
  | a :: as, b :: bs =>
    if a.toNat < b.toNat then true
    else if b.toNat < a.toNat then false
    else lexLt as bs

/-- Python string comparison `a < b` (code-point lexicographic). -/
def pyStrLt (a b : String) : Bool := lexLt a.data b.data

/-! ### Recipe and CookingSession (src/backend/state.py) -/

/-- One entry of the recipe's `steps` list, restricted to the two fields
the session engine reads (`s["step_number"]`, `s["instruction"]`). -/
structure RecipeStep where
  step_number : ℤ
  instruction : String
deriving DecidableEq

/-- The recipe document as the session engine reads it:
`recipe.get("steps", [])`. -/
structure Recipe where
  steps : List RecipeStep
deriving DecidableEq

/-- `CookingSession` dataclass from state.py. -/
structure CookingSession where
  session_id : String
  recipe : Recipe
  current_step : ℤ := 1
  timers : List (String × Timer) := []
  created_at : ℚ
  notes : List String := []
  is_paused : Bool := false
deriving DecidableEq

/-- `CookingSession.total_steps`: `len(self.recipe.get("steps", []))`. -/
def totalSteps (s : CookingSession) : ℤ := s.recipe.steps.length

/-- `CookingSession.current_step_data`: the step at `current_step` when
`1 <= current_step <= len(steps)`, else `None`. -/
def currentStepData (s : CookingSession) : Option RecipeStep :=
  if h : 1 ≤ s.current_step ∧ s.current_step ≤ s.recipe.steps.length then
    some (s.recipe.steps.get ⟨(s.current_step - 1).toNat, by omega⟩)
  else none

/-- `CookingSession.next_step`: increment if `current_step < total_steps`,
returning whether it advanced. -/
def nextStep (s : CookingSession) : CookingSession × Bool :=
  if s.current_step < totalSteps s then ({ s with current_step := s.current_step + 1 }, true)
  else (s, false)

/-- `CookingSession.previous_step`: decrement if `current_step > 1`,
returning whether it moved. -/
def prevStep (s : CookingSession) : CookingSession × Bool :=
  if s.current_step > 1 then ({ s with current_step := s.current_step - 1 }, true)
  else (s, false)

/-- The "go to step N" handler in app.py `query_session`:
`if 1 <= target_step <= session.total_steps: session.current_step = target_step`. -/
def jumpStep (s : CookingSession) (n : ℤ) : CookingSession :=
  if 1 ≤ n ∧ n ≤ totalSteps s then { s with current_step := n } else s

/-- `CookingSession.add_timer`: mint the id from the creation instant,
start the timer "running" at that instant, insert it into the timer dict,
and return it. -/
def addTimer (s : CookingSession) (label : String) (seconds : ℤ) (now : ℚ) :
    CookingSession × Timer :=
  let tid := timerIdOf now
  let tm : Timer := { id := tid, label := label, seconds_total := seconds, started_at := now }
  ({ s with timers := dictInsert tid tm s.timers }, tm)

/-- One step-navigation operation from app.py `query_session`: "next",
"previous"/"back", or "go to step N". -/
inductive NavOp where
  | next : NavOp
  | prev : NavOp
  | jump : ℤ → NavOp
deriving DecidableEq

/-- Apply one navigation operation to a session. -/
def applyOp (s : CookingSession) : NavOp → CookingSession
  | .next => (nextStep s).1
  | .prev => (prevStep s).1
  | .jump n => jumpStep s n

/-- Apply a finite sequence of navigation operations. -/
def applyOps (s : CookingSession) (ops : List NavOp) : CookingSession :=
  ops.foldl applyOp s

/-! ### query_session command dispatch (src/backend/app.py) -/

/-- The regex-match results `query_session` computes on the lowercased
utterance, abstracted over the Python stdlib `re` module: one flag per
pattern, in the order the handler tests them.
`gotoM` carries the captured step number of "go to/jump to/show me/goto
step N", `listM` the captured direction (`true` = "first") and count of
"list (the) first|last K steps"; both captures are `(\d+)` digit strings,
hence natural numbers. -/
structure QueryMatch where
  pauseM : Bool
  resumeM : Bool
  nextM : Bool
  prevM : Bool
  repeatM : Bool
  gotoM : Option ℕ
  listM : Option (Bool × ℕ)
  explainM : Bool
deriving DecidableEq

/-- Python `steps[:count]` for a nonnegative `count`. -/
def pySliceFirst {α : Type} (l : List α) (count : ℕ) : List α := l.take count

/-- Python `steps[-count:]` for a nonnegative `count`: `-0` is `0`, so
`count = 0` yields the whole list; otherwise the start index is
`len - count` clamped to `0`. -/
def pySliceLast {α : Type} (l : List α) (count : ℕ) : List α :=
  if count = 0 then l else l.drop (l.length - count)

/-- The `"\n".join(f"Step {s['step_number']}: {s['instruction']}" ...)`
rendering of the list-steps branch. -/
def renderSteps (sel : List RecipeStep) : String :=
  String.intercalate "\n"
    (sel.map fun st => "Step " ++ intStr st.step_number ++ ": " ++ st.instruction)

/-- How a `query_session` call concludes: `direct` responses are returned
without touching the language-model backend, `llm` means the (possibly
rewritten) query is forwarded to the LLM with the timer-alert text
prepended to its eventual answer. -/
inductive QueryOutcome where
  | direct : String → QueryOutcome
  | llm : String → String → QueryOutcome
deriving DecidableEq

/-- The command-dispatch portion of app.py `query_session`, from the pause
check down to the LLM forward, evaluated at query instant `now`:
pause and resume return immediately; next/previous/repeat/goto mutate the
step and fall through; the list-steps branch returns immediately
(before any timer sweep); the explain branch rewrites the query; otherwise
timers are swept and the query is forwarded to the LLM. -/
def querySession (s : CookingSession) (m : QueryMatch) (query : String) (now : ℚ) :
    CookingSession × QueryOutcome :=
  if m.pauseM then
    ({ s with is_paused := true },
      .direct "Session paused. Say 'resume' or 'continue' when you're ready.")
  else if m.resumeM then
    let s' := { s with is_paused := false }
    let stepText := match currentStepData s' with
      | some st => st.instruction
      | none => "Ready to continue"
    (s', .direct ("Resuming. Step " ++ intStr s'.current_step ++ ": " ++ stepText))
  else
    let s1 :=
      if m.nextM then (nextStep s).1
      else if m.prevM then (prevStep s).1
      else if m.repeatM then s
      else match m.gotoM with
        | some n => jumpStep s (n : ℤ)
        | none => s
    match m.listM with
    | some (isFirst, count) =>
      let steps := s1.recipe.steps
      let sel := if isFirst then pySliceFirst steps count else pySliceLast steps count
      (s1, .direct (renderSteps sel))
    | none =>
      let q' :=
        if m.explainM then
          match currentStepData s1 with
          | some st =>
            "Explain step " ++ intStr s1.current_step ++ " in detail: " ++ st.instruction
          | none => query
        else query
      let keys := s1.timers.map Prod.fst
      let swept := checkTimers now (s1.timers.map Prod.snd)
      let s2 := { s1 with timers := keys.zip swept.1 }
      let prefixStr :=
        if swept.2.isEmpty then ""
        else "Alert: " ++ String.intercalate ", " (swept.2.map fun t => t.label ++ " is done")
          ++ ". "
      (s2, .llm prefixStr q')

/-! ### Session persistence (src/backend/state.py, SessionManager) -/

/-- One row of the `sessions` table: session_id, recipe_json,
current_step, created_at, updated_at, is_paused (stored as 0/1).
The recipe is stored as `json.dumps(session.recipe)` and read back with
`json.loads`, a round trip that is the identity on the document, so the
row carries the recipe value itself. -/
structure SessionRow where
  session_id : String
  recipe : Recipe
  current_step : ℤ
  created_at : ℚ
  updated_at : ℚ
  is_paused_flag : ℤ
deriving DecidableEq

/-- One row of the `timers` table. -/
structure TimerRow where
  timer_id : String
  session_id : String
  label : String
  seconds_total : ℤ
  started_at : ℚ
  status : String
deriving DecidableEq

/-- `SessionManager._save_session` at save instant `now`: the sessions row
(with `updated_at = time.time()` and `is_paused` as 0/1) plus one timers
row per timer in dict order. Note no column stores `notes`. -/
def saveSession (s : CookingSession) (now : ℚ) : SessionRow × List TimerRow :=
  ({ session_id := s.session_id
     recipe := s.recipe
     current_step := s.current_step
     created_at := s.created_at
     updated_at := now
     is_paused_flag := if s.is_paused then 1 else 0 },
   s.timers.map fun kv =>
     { timer_id := kv.2.id
       session_id := s.session_id
       label := kv.2.label
       seconds_total := kv.2.seconds_total
       started_at := kv.2.started_at
       status := kv.2.status })

/-- `SessionManager._load_session`: rebuild the `CookingSession` from its
row (fields not selected — `notes` among them — take the dataclass
defaults) and re-insert each timer row into the timer dict. -/
def loadSession (row : SessionRow) (trows : List TimerRow) : CookingSession :=
  let base : CookingSession :=
    { session_id := row.session_id
      recipe := row.recipe
      current_step := row.current_step
      created_at := row.created_at
      is_paused := if row.is_paused_flag = 0 then false else true }
  { base with
    timers := trows.foldl
      (fun acc tr => dictInsert tr.timer_id
        { id := tr.timer_id
          label := tr.label
          seconds_total := tr.seconds_total
          started_at := tr.started_at
          status := tr.status } acc) [] }

/-! ### Recipe extraction pipeline (src/backend/extractors.py) -/

/-- A JSON-like Python value, as produced by `json.loads`. -/
inductive PyVal where
  | str : String → PyVal
  | int : ℤ → PyVal
  | bool : Bool → PyVal
  | none : PyVal
  | list : List PyVal → PyVal
  | dict : List (String × PyVal) → PyVal

/-- The per-step check inside `_validate_recipe`: the entry is a dict
containing both a "step_number" and an "instruction" key. -/
def isValidStep : PyVal → Bool
  | .dict kvs => ((kvs.lookup "step_number").isSome && (kvs.lookup "instruction").isSome)
  | _ => false

/-- `RecipeExtractor._validate_recipe`: required keys present, ingredients
a dict, kitchen_tools_and_dishes a list, steps a non-empty list whose
entries all pass `isValidStep`. A non-dict document never validates (in
the Python, `key not in recipe` on a non-dict either yields a missing key
or raises, and both paths fail the attempt without returning a recipe). -/
def validateRecipe : PyVal → Bool
  | .dict kvs =>
    ((kvs.lookup "ingredients").isSome &&
     (kvs.lookup "kitchen_tools_and_dishes").isSome &&
     (kvs.lookup "steps").isSome) &&
    (match kvs.lookup "ingredients" with
     | some (.dict _) => true
     | _ => false) &&
    (match kvs.lookup "kitchen_tools_and_dishes" with
     | some (.list _) => true
     | _ => false) &&
    (match kvs.lookup "steps" with
     | some (.list steps) => !steps.isEmpty && steps.all isValidStep
     | _ => false)
  | _ => false

/-- Outcome of one language-backend round trip followed by
`extract_json_from_response` and `json.loads`: either the candidate text
fails to parse as JSON, or it parses to a `PyVal`. -/
inductive LLMResp where
  | parseFail : LLMResp
  | parsed : PyVal → LLMResp

/-- The kind of each language-backend call the pipeline makes: a fresh
extraction prompt or a `_fix_json` repair prompt. -/
inductive CallKind where
  | extrct : CallKind
  | repair : CallKind
deriving DecidableEq

/-- The retry loop of `RecipeExtractor.extract`, over an oracle giving the
(parsed) outcome of the backend's reply to the n-th call made.
`call` is the index of the next backend call, `left` the number of
attempts remaining (initially `max_retries + 1`); the repair pass runs
only when the candidate fails to parse *and* `attempt < max_retries`,
i.e. at least one further attempt remains (`2 ≤ left` on entry).
Returns the extracted recipe (if any) and the trace of backend calls. -/
def extractGo (oracle : ℕ → LLMResp) : ℕ → ℕ → Option PyVal × List CallKind
  | _, 0 => (Option.none, [])
  | call, left + 1 =>
    match oracle call with
    | .parsed r =>
      if validateRecipe r then (some r, [.extrct])
      else
        let res := extractGo oracle (call + 1) left
        (res.1, .extrct :: res.2)
    | .parseFail =>
      if 1 ≤ left then
        match oracle (call + 1) with
        | .parsed r =>
          if validateRecipe r then (some r, [.extrct, .repair])
          else
            let res := extractGo oracle (call + 2) left
            (res.1, .extrct :: .repair :: res.2)
        | .parseFail =>
          let res := extractGo oracle (call + 2) left
          (res.1, .extrct :: .repair :: res.2)
      else
        let res := extractGo oracle (call + 1) left
        (res.1, .extrct :: res.2)

/-- `RecipeExtractor.extract` with retry budget `maxRetries`
(constructor default 2): run the loop over `max_retries + 1` attempts,
returning `None` when all attempts fail. -/
def extractRecipe (oracle : ℕ → LLMResp) (maxRetries : ℕ) : Option PyVal × List CallKind :=
  extractGo oracle 0 (maxRetries + 1)

/-- Value of a big-endian digit list (used to reason about the decimal
strings inside timer ids). -/
def valueBE (ds : List ℕ) : ℕ := ds.foldl (fun a d => a * 10 + d) 0

/-! ### Concrete fixtures used by witnesses and counterexamples -/

/-- A five-step recipe. -/
def wRecipe : Recipe :=
  ⟨[⟨1, "Boil water"⟩, ⟨2, "Add pasta"⟩, ⟨3, "Stir"⟩, ⟨4, "Drain"⟩, ⟨5, "Serve"⟩]⟩

/-- A session over `wRecipe` at a given step. -/
def wSession (cs : ℤ) : CookingSession :=
  { session_id := "session_0", recipe := wRecipe, current_step := cs, created_at := 0 }

/-- A running 60-second timer started at instant 0. -/
def wTimer : Timer :=
  { id := "timer_0", label := "pasta", seconds_total := 60, started_at := 0 }

/-- Match flags of an utterance that matches only the list-steps pattern,
with the given captured direction and count. -/
def wListMatch (isFirst : Bool) (k : ℕ) : QueryMatch :=
  { pauseM := false, resumeM := false, nextM := false, prevM := false,
    repeatM := false, gotoM := Option.none, listM := some (isFirst, k), explainM := false }

/-- A session carrying a non-empty free-text notes list. -/
def wNotesSession : CookingSession :=
  { session_id := "session_1", recipe := wRecipe, created_at := 0, notes := ["check oven"] }

/-- A recipe document that passes `_validate_recipe`. -/
def goodRecipe : PyVal :=
  .dict [("title", .str "Pasta"),
         ("ingredients", .dict [("produce", .list [.str "tomato"])]),
         ("kitchen_tools_and_dishes", .list [.str "pan"]),
         ("steps", .list [.dict [("step_number", .int 1), ("instruction", .str "Cook")]])]

/-- A parseable document that fails `_validate_recipe` (no required keys). -/
def badRecipe : PyVal := .dict []

/-- A backend whose replies always parse to a valid recipe. -/
def wOracleGood : ℕ → LLMResp := fun _ => .parsed goodRecipe

/-- A backend whose replies always parse but never validate. -/
def wOracleBad : ℕ → LLMResp := fun _ => .parsed badRecipe

/-- A backend whose first reply fails to parse and whose later replies
(the repair reply included) parse to a valid recipe. -/
def wOracleRepair : ℕ → LLMResp := fun n => if n = 0 then .parseFail else .parsed goodRecipe

/-! ## Theorems -/

/-! ### pyInt -/

theorem pyInt_eq_floor (q : ℚ) (h : 0 ≤ q) : pyInt q = ⌊q⌋ := by
  rw [Rat.floor_def, pyInt]
  exact Int.tdiv_eq_ediv (Rat.num_nonneg.mpr h) (Int.ofNat_nonneg _)

theorem pyInt_neg (q : ℚ) : pyInt (-q) = -pyInt q := by
  unfold pyInt
  rw [Rat.neg_num, Rat.neg_den, Int.neg_tdiv]

theorem pyInt_eq_ceil (q : ℚ) (h : q ≤ 0) : pyInt q = ⌈q⌉ := by
  have h2 : 0 ≤ -q := by linarith
  have h3 := pyInt_eq_floor (-q) h2
  rw [pyInt_neg] at h3
  rw [Int.floor_neg] at h3
  omega

theorem pyInt_mono {a b : ℚ} (h : a ≤ b) : pyInt a ≤ pyInt b := by
  rcases le_or_lt 0 a with ha | ha
  · rw [pyInt_eq_floor a ha, pyInt_eq_floor b (le_trans ha h)]
    exact Int.floor_mono h
  · rcases le_or_lt b 0 with hb | hb
    · rw [pyInt_eq_ceil a (le_of_lt ha), pyInt_eq_ceil b hb]
      exact Int.ceil_mono h
    · rw [pyInt_eq_ceil a (le_of_lt ha), pyInt_eq_floor b (le_of_lt hb)]
      have h1 : ⌈a⌉ ≤ 0 := by
        have := Int.ceil_mono (le_of_lt ha)
        simpa using this
      have h2 : (0 : ℤ) ≤ ⌊b⌋ := by
        have := Int.floor_mono (le_of_lt hb)
        simpa using this
      omega

theorem pyInt_intCast (n : ℤ) : pyInt ((n : ℚ)) = n := by
  unfold pyInt
  rw [Rat.intCast_num, Rat.intCast_den]
  simp

/-! ### C1 and C2: step navigation -/

theorem applyOp_recipe (s : CookingSession) (op : NavOp) : (applyOp s op).recipe = s.recipe := by
  cases op <;> simp only [applyOp, nextStep, prevStep, jumpStep] <;> split <;> rfl

theorem applyOp_invariant (s : CookingSession) (op : NavOp)
    (h : 1 ≤ s.current_step ∧ s.current_step ≤ totalSteps s) :
    1 ≤ (applyOp s op).current_step ∧ (applyOp s op).current_step ≤ totalSteps (applyOp s op) := by
  have hrec : totalSteps (applyOp s op) = totalSteps s := by
    unfold totalSteps
    rw [applyOp_recipe]
  rw [hrec]
  cases op <;> simp only [applyOp, nextStep, prevStep, jumpStep] <;> split <;>
    simp_all <;> omega

/-- C1: starting from `current_step = 1` over a non-empty steps list,
every finite sequence of next/previous/jump operations (jump targets
unrestricted) leaves `current_step` within `[1, total_steps]`. -/
theorem claim_C1_step_invariant (s : CookingSession)
    (h0 : s.recipe.steps ≠ []) (h1 : s.current_step = 1) (ops : List NavOp) :
    1 ≤ (applyOps s ops).current_step ∧
      (applyOps s ops).current_step ≤ totalSteps (applyOps s ops) := by
  have hstart : 1 ≤ s.current_step ∧ s.current_step ≤ totalSteps s := by
    have hlen : s.recipe.steps.length ≠ 0 := fun hc => h0 (List.length_eq_zero.mp hc)
    unfold totalSteps
    omega
  clear h0 h1
  induction ops generalizing s with
  | nil => exact hstart
  | cons op rest ih =>
    have := applyOp_invariant s op hstart
    exact ih (applyOp s op) this

/-- Witness for C1: a two-step walk (next, then an out-of-range jump to 99)
on the five-step fixture stays inside `[1, 5]`. -/
theorem claim_C1_witness :
    1 ≤ (applyOps (wSession 1) [NavOp.next, NavOp.jump 99]).current_step ∧
      (applyOps (wSession 1) [NavOp.next, NavOp.jump 99]).current_step ≤
        totalSteps (applyOps (wSession 1) [NavOp.next, NavOp.jump 99]) :=
  claim_C1_step_invariant (wSession 1) (by decide) (by decide) [NavOp.next, NavOp.jump 99]

/-- C2: the boundary mutators are silent no-ops: `next_step` at the last
step returns false and changes nothing; `previous_step` at step 1 returns
false and changes nothing; a jump to any `n` outside `[1, total_steps]`
leaves the session unchanged (and, being a total function, raises no
error). -/
theorem claim_C2_boundary_noops (s : CookingSession) :
    (s.current_step = totalSteps s → nextStep s = (s, false)) ∧
    (s.current_step = 1 → prevStep s = (s, false)) ∧
    (∀ n : ℤ, n < 1 ∨ totalSteps s < n → jumpStep s n = s) := by
  refine ⟨?_, ?_, ?_⟩
  · intro h
    unfold nextStep
    rw [if_neg (by omega)]
  · intro h
    unfold prevStep
    rw [if_neg (by omega)]
  · intro n hn
    unfold jumpStep
    rw [if_neg (by omega)]

/-- Witness for C2: on the five-step fixture, `next_step` at step 5,
`previous_step` at step 1, and a jump to 6 are all no-ops. -/
theorem claim_C2_witness :
    nextStep (wSession 5) = (wSession 5, false) ∧
      prevStep (wSession 1) = (wSession 1, false) ∧
      jumpStep (wSession 3) 6 = wSession 3 :=
  ⟨(claim_C2_boundary_noops (wSession 5)).1 (by decide),
   (claim_C2_boundary_noops (wSession 1)).2.1 (by decide),
   (claim_C2_boundary_noops (wSession 3)).2.2 6 (by right; decide)⟩

/-! ### C3: timer remaining -/

/-- C3: `seconds_remaining` is never negative; for a running timer it is
monotonically non-increasing in the query instant; for a timer whose
status is not "running" it is 0 at every instant. -/
theorem claim_C3_remaining (t : Timer) (t1 t2 : ℚ) (h : t1 ≤ t2) :
    0 ≤ secondsRemaining t t1 ∧
    (t.status = "running" → secondsRemaining t t2 ≤ secondsRemaining t t1) ∧
    (t.status ≠ "running" → secondsRemaining t t1 = 0) := by
  refine ⟨?_, ?_, ?_⟩
  · unfold secondsRemaining
    split
    · exact le_refl 0
    · exact le_max_left 0 _
  · intro hr
    unfold secondsRemaining
    rw [if_neg (by simp [hr]), if_neg (by simp [hr])]
    have hmono := pyInt_mono (sub_le_sub_right h t.started_at)
    exact max_le_max (le_refl 0) (by omega)
  · intro hn
    unfold secondsRemaining
    rw [if_pos hn]

/-- Witness for C3: the running fixture timer still has nonnegative time
at instant 5, and its remaining seconds at instant 7 are at most those at
instant 5. -/
theorem claim_C3_witness :
    0 ≤ secondsRemaining wTimer 5 ∧ secondsRemaining wTimer 7 ≤ secondsRemaining wTimer 5 :=
  ⟨(claim_C3_remaining wTimer 5 7 (by norm_num)).1,
   (claim_C3_remaining wTimer 5 7 (by norm_num)).2.1 rfl⟩

/-! ### C4: sweeps flip each timer at most once -/

theorem checkTimers_fst_get? (now : ℚ) (ts : List Timer) (i : ℕ) :
    ((checkTimers now ts).1).get? i = (ts.get? i).map (sweepOne now) := by
  induction ts generalizing i with
  | nil => simp [checkTimers]
  | cons tm rest ih =>
    simp only [checkTimers]
    cases i with
    | zero =>
      by_cases hc : tm.status = "running" ∧ isDone tm now
      · simp [hc, sweepOne]
      · simp [hc, sweepOne]
    | succ j =>
      by_cases hc : tm.status = "running" ∧ isDone tm now
      · simpa [hc, List.get?_eq_getElem?] using ih j
      · simpa [hc, List.get?_eq_getElem?] using ih j

theorem runSweeps_completed (times : List ℚ) (ts : List Timer) (i : ℕ) (tm : Timer)
    (h : ts.get? i = some tm) (hst : tm.status = "completed") :
    (runSweeps ts times).get? i = some tm := by
  induction times generalizing ts with
  | nil => simpa [runSweeps, List.get?_eq_getElem?] using h
  | cons t rest ih =>
    simp only [runSweeps]
    apply ih
    rw [checkTimers_fst_get?, h]
    have hne : ¬(tm.status = "running" ∧ isDone tm t) := by
      rintro ⟨h1, _⟩
      rw [hst] at h1
      exact absurd h1 (by decide)
    simp [sweepOne, hne]

/-- C4: a sweep flips a timer from "running" to "completed" at most once:
if the sweep at instant `t1` (performed after the sweeps at `times`) flips
— and hence returns in its completed list — the timer at position `i`,
then no later sweep (at instant `t2`, after any further sweeps at
`times2`) flips or returns that timer again. -/
theorem claim_C4_sweep_once (ts : List Timer) (times : List ℚ) (t1 : ℚ)
    (times2 : List ℚ) (t2 : ℚ) (i : ℕ)
    (h : flipsAt (runSweeps ts times) t1 i) :
    ¬ flipsAt (runSweeps (checkTimers t1 (runSweeps ts times)).1 times2) t2 i := by
  unfold flipsAt at h
  cases hg : (runSweeps ts times).get? i with
  | none => rw [hg] at h; exact absurd h not_false
  | some tm =>
    rw [hg] at h
    obtain ⟨hrun, hdone⟩ := h
    have hflip : ((checkTimers t1 (runSweeps ts times)).1).get? i =
        some { tm with status := "completed" } := by
      rw [checkTimers_fst_get?, hg]
      simp [sweepOne, hrun, hdone]
    have hpres := runSweeps_completed times2 _ i _ hflip rfl
    intro hcontra
    unfold flipsAt at hcontra
    rw [hpres] at hcontra
    obtain ⟨hr2, _⟩ := hcontra
    simp at hr2

/-- Witness for C4: the fixture timer expires at instant 60; the sweep at
60 flips it, and the follow-up sweep at 61 does not flip it again. -/
theorem claim_C4_witness :
    ¬ flipsAt (runSweeps (checkTimers 60 (runSweeps [wTimer] [])).1 []) 61 0 := by
  apply claim_C4_sweep_once [wTimer] [] 60 [] 61 0
  simp only [runSweeps, flipsAt, List.get?]
  refine ⟨rfl, ?_⟩
  unfold isDone secondsRemaining
  rw [if_neg (by simp [wTimer])]
  have h60 : (60 : ℚ) - wTimer.started_at = ((60 : ℤ) : ℚ) := by
    norm_num [wTimer]
  rw [h60, pyInt_intCast]
  norm_num [wTimer]

/-! ### C7 and C10: the list-steps branch -/

/-- C7: when the utterance matches the list-steps pattern and none of the
higher-priority rules (pause, resume, next, previous, repeat, goto), the
handler returns the sliced steps rendered verbatim in recipe order,
leaves the session — in particular `current_step` — unchanged, and
short-circuits with a `direct` outcome (nothing is forwarded to the LLM);
when the count reaches or exceeds the number of steps the slice clamps to
the whole steps list instead of erring. -/
theorem claim_C7_list_steps (s : CookingSession) (m : QueryMatch) (q : String) (now : ℚ)
    (isFirst : Bool) (k : ℕ)
    (hp : m.pauseM = false) (hres : m.resumeM = false) (hn : m.nextM = false)
    (hprev : m.prevM = false) (hrep : m.repeatM = false) (hg : m.gotoM = Option.none)
    (hl : m.listM = some (isFirst, k)) :
    querySession s m q now =
      (s, QueryOutcome.direct (renderSteps
        (if isFirst then pySliceFirst s.recipe.steps k else pySliceLast s.recipe.steps k))) ∧
    (s.recipe.steps.length ≤ k →
      (if isFirst then pySliceFirst s.recipe.steps k else pySliceLast s.recipe.steps k) =
        s.recipe.steps) := by
  constructor
  · simp [querySession, hp, hres, hn, hprev, hrep, hg, hl]
  · intro hk
    cases isFirst
    · show pySliceLast s.recipe.steps k = s.recipe.steps
      unfold pySliceLast
      split
      · rfl
      · rw [Nat.sub_eq_zero_of_le hk, List.drop_zero]
    · show pySliceFirst s.recipe.steps k = s.recipe.steps
      exact List.take_of_length_le hk

/-- Witness for C7: "list last 2 steps" on the five-step fixture at step 3
returns steps 4 and 5 verbatim in order and leaves the session unchanged. -/
theorem claim_C7_witness :
    querySession (wSession 3) (wListMatch false 2) "list last 2 steps" 0 =
      (wSession 3, QueryOutcome.direct "Step 4: Drain\nStep 5: Serve") :=
  ((claim_C7_list_steps (wSession 3) (wListMatch false 2) "list last 2 steps" 0 false 2
    rfl rfl rfl rfl rfl rfl rfl).1).trans (by rfl)

/-- C10: at count 0 the two directions are asymmetric: "list first 0
steps" yields the empty slice (empty response), while "list last 0 steps"
yields every step of the recipe, because Python `steps[-0:]` is the whole
list. -/
theorem claim_C10_zero_count (s : CookingSession) (m1 m2 : QueryMatch) (q : String) (now : ℚ)
    (hne : s.recipe.steps ≠ [])
    (h1p : m1.pauseM = false) (h1r : m1.resumeM = false) (h1n : m1.nextM = false)
    (h1v : m1.prevM = false) (h1e : m1.repeatM = false) (h1g : m1.gotoM = Option.none)
    (h1l : m1.listM = some (true, 0))
    (h2p : m2.pauseM = false) (h2r : m2.resumeM = false) (h2n : m2.nextM = false)
    (h2v : m2.prevM = false) (h2e : m2.repeatM = false) (h2g : m2.gotoM = Option.none)
    (h2l : m2.listM = some (false, 0)) :
    querySession s m1 q now = (s, QueryOutcome.direct (renderSteps [])) ∧
    querySession s m2 q now = (s, QueryOutcome.direct (renderSteps s.recipe.steps)) := by
  constructor
  · simp [querySession, h1p, h1r, h1n, h1v, h1e, h1g, h1l, pySliceFirst]
  · simp [querySession, h2p, h2r, h2n, h2v, h2e, h2g, h2l, pySliceLast]

/-- Witness for C10: on the five-step fixture, "list first 0 steps"
returns the empty response and "list last 0 steps" returns all five
steps. -/
theorem claim_C10_witness :
    querySession (wSession 1) (wListMatch true 0) "list first 0 steps" 0 =
      (wSession 1, QueryOutcome.direct "") ∧
    querySession (wSession 1) (wListMatch false 0) "list last 0 steps" 0 =
      (wSession 1, QueryOutcome.direct
        "Step 1: Boil water\nStep 2: Add pasta\nStep 3: Stir\nStep 4: Drain\nStep 5: Serve") := by
  refine ⟨?_, ?_⟩
  · exact (claim_C10_zero_count (wSession 1) (wListMatch true 0) (wListMatch false 0)
      "list first 0 steps" 0 (by decide) rfl rfl rfl rfl rfl rfl rfl
      rfl rfl rfl rfl rfl rfl rfl).1.trans (by rfl)
  · exact (claim_C10_zero_count (wSession 1) (wListMatch true 0) (wListMatch false 0)
      "list last 0 steps" 0 (by decide) rfl rfl rfl rfl rfl rfl rfl
      rfl rfl rfl rfl rfl rfl rfl).2.trans (by rfl)

/-! ### C8: notes are not persisted -/

/-- Counterexample for C8: a session with notes `["check oven"]`, saved at
instant 5 and loaded back, comes back with an empty notes list — the
`sessions` table has no notes column, so the round trip does not preserve
the notes list. -/
theorem claim_C8_counterexample :
    (loadSession (saveSession wNotesSession 5).1 (saveSession wNotesSession 5).2).notes ≠
      wNotesSession.notes := by
  decide

/-- C8 (amended): the notes list is not persisted: loading any saved
session yields an empty notes list, whatever the saved session's notes
were. -/
theorem claim_C8_notes_dropped (s : CookingSession) (now : ℚ) :
    (loadSession (saveSession s now).1 (saveSession s now).2).notes = [] := rfl

/-! ### C5 and C6: the extraction retry loop -/

theorem extractGo_valid (oracle : ℕ → LLMResp) (left : ℕ) : ∀ call : ℕ,
    (∀ r, (extractGo oracle call left).1 = some r → validateRecipe r = true) ∧
    ((extractGo oracle call left).2).length ≤ 2 * left := by
  induction left with
  | zero =>
    intro call
    exact ⟨fun r h => by simp [extractGo] at h, by simp [extractGo]⟩
  | succ l ih =>
    intro call
    cases horc : oracle call with
    | parsed r =>
      cases hv : validateRecipe r with
      | true =>
        refine ⟨fun r' h => ?_, ?_⟩
        · simp [extractGo, horc, hv] at h
          exact h ▸ hv
        · simp [extractGo, horc, hv]
          omega
      | false =>
        have hrec := ih (call + 1)
        refine ⟨fun r' h => ?_, ?_⟩
        · simp [extractGo, horc, hv] at h
          exact hrec.1 r' h
        · simp [extractGo, horc, hv]
          omega
    | parseFail =>
      by_cases hl : 1 ≤ l
      · cases horc2 : oracle (call + 1) with
        | parsed r =>
          cases hv : validateRecipe r with
          | true =>
            refine ⟨fun r' h => ?_, ?_⟩
            · simp [extractGo, horc, horc2, hl, hv] at h
              exact h ▸ hv
            · simp [extractGo, horc, horc2, hl, hv]
          | false =>
            have hrec := ih (call + 2)
            refine ⟨fun r' h => ?_, ?_⟩
            · simp [extractGo, horc, horc2, hl, hv] at h
              exact hrec.1 r' h
            · simp [extractGo, horc, horc2, hl, hv]
              omega
        | parseFail =>
          have hrec := ih (call + 2)
          refine ⟨fun r' h => ?_, ?_⟩
          · simp [extractGo, horc, horc2, hl] at h
            exact hrec.1 r' h
          · simp [extractGo, horc, horc2, hl]
            omega
      · have hrec := ih (call + 1)
        refine ⟨fun r' h => ?_, ?_⟩
        · simp [extractGo, horc, hl] at h
          exact hrec.1 r' h
        · simp [extractGo, horc, hl]
          omega

/-- C5: whatever the backend does, the pipeline either returns a recipe
that satisfies the structural validator or returns nothing once the retry
budget (`max_retries + 1` attempts, at most two backend calls each) is
exhausted; it never returns a structurally invalid recipe. -/
theorem claim_C5_never_invalid (oracle : ℕ → LLMResp) (maxRetries : ℕ) :
    (∀ r, (extractRecipe oracle maxRetries).1 = some r → validateRecipe r = true) ∧
    ((extractRecipe oracle maxRetries).2).length ≤ 2 * (maxRetries + 1) :=
  extractGo_valid oracle (maxRetries + 1) 0

/-- Witness for C5: against the always-valid backend the pipeline returns
`goodRecipe`, which the validator accepts. -/
theorem claim_C5_witness : validateRecipe goodRecipe = true :=
  (claim_C5_never_invalid wOracleGood 2).1 goodRecipe rfl

theorem extractGo_trace_head (oracle : ℕ → LLMResp) (call l : ℕ) :
    ∃ rest, (extractGo oracle call (l + 1)).2 = CallKind.extrct :: rest := by
  cases horc : oracle call with
  | parsed r =>
    cases hv : validateRecipe r with
    | true => exact ⟨[], by simp [extractGo, horc, hv]⟩
    | false =>
      exact ⟨(extractGo oracle (call + 1) l).2, by simp [extractGo, horc, hv]⟩
  | parseFail =>
    by_cases hl : 1 ≤ l
    · cases horc2 : oracle (call + 1) with
      | parsed r =>
        cases hv : validateRecipe r with
        | true => exact ⟨[CallKind.repair], by simp [extractGo, horc, horc2, hl, hv]⟩
        | false =>
          exact ⟨CallKind.repair :: (extractGo oracle (call + 2) l).2,
            by simp [extractGo, horc, horc2, hl, hv]⟩
      | parseFail =>
        exact ⟨CallKind.repair :: (extractGo oracle (call + 2) l).2,
          by simp [extractGo, horc, horc2, hl]⟩
    · exact ⟨(extractGo oracle (call + 1) l).2, by simp [extractGo, horc, hl]⟩

/-- Counterexample for C6: against a backend whose replies always parse
but never validate, every one of the three attempts (default budget
`max_retries = 2`) fails structural validation with retries remaining
after the first two, yet the call trace is three plain extractions — no
repair pass is ever performed, contradicting the claim that a failed
validation is followed by a repair pass before the next retry. -/
theorem claim_C6_counterexample :
    validateRecipe badRecipe = false ∧
    extractRecipe wOracleBad 2 =
      (Option.none, [CallKind.extrct, CallKind.extrct, CallKind.extrct]) ∧
    CallKind.repair ∉ (extractRecipe wOracleBad 2).2 := by
  refine ⟨rfl, rfl, ?_⟩
  decide

/-- C6 (amended): only a JSON parse failure triggers the repair pass:
with retries remaining, a reply that fails to parse is immediately
followed by a `_fix_json` repair call before the next attempt, while a
reply that parses but fails structural validation is followed directly by
the next attempt's fresh extraction call, with no repair pass. -/
theorem claim_C6_repair_only_on_parse_failure (oracle : ℕ → LLMResp) (call left : ℕ)
    (hleft : 2 ≤ left) :
    (oracle call = LLMResp.parseFail →
      ∃ rest, (extractGo oracle call left).2 = CallKind.extrct :: CallKind.repair :: rest) ∧
    (∀ r, oracle call = LLMResp.parsed r → validateRecipe r = false →
      ∃ rest, (extractGo oracle call left).2 =
        CallKind.extrct :: CallKind.extrct :: rest) := by
  obtain ⟨l, rfl⟩ : ∃ l, left = l + 1 := ⟨left - 1, by omega⟩
  have hl : 1 ≤ l := by omega
  constructor
  · intro horc
    cases horc2 : oracle (call + 1) with
    | parsed r =>
      cases hv : validateRecipe r with
      | true => exact ⟨[], by simp [extractGo, horc, horc2, hl, hv]⟩
      | false =>
        exact ⟨(extractGo oracle (call + 2) l).2, by simp [extractGo, horc, horc2, hl, hv]⟩
    | parseFail =>
      exact ⟨(extractGo oracle (call + 2) l).2, by simp [extractGo, horc, horc2, hl]⟩
  · intro r horc hv
    obtain ⟨l', rfl⟩ : ∃ l', l = l' + 1 := ⟨l - 1, by omega⟩
    obtain ⟨rest, hrest⟩ := extractGo_trace_head oracle (call + 1) l'
    refine ⟨rest, ?_⟩
    have hstep : (extractGo oracle call (l' + 1 + 1)).2 =
        CallKind.extrct :: (extractGo oracle (call + 1) (l' + 1)).2 := by
      simp [extractGo, horc, hv]
    rw [hstep, hrest]

/-- Witness for C6 (amended): with the parse-fail-then-valid backend the
trace starts with an extraction followed by a repair; with the
never-valid backend the trace starts with two plain extractions. -/
theorem claim_C6_witness :
    (∃ rest, (extractGo wOracleRepair 0 3).2 =
      CallKind.extrct :: CallKind.repair :: rest) ∧
    (∃ rest, (extractGo wOracleBad 0 3).2 =
      CallKind.extrct :: CallKind.extrct :: rest) :=
  ⟨(claim_C6_repair_only_on_parse_failure wOracleRepair 0 3 (by norm_num)).1 rfl,
   (claim_C6_repair_only_on_parse_failure wOracleBad 0 3 (by norm_num)).2 badRecipe rfl rfl⟩

/-! ### C9: timer identities -/

theorem decDigitsAux_eq : ∀ fuel n : ℕ, n ≤ fuel → decDigitsAux n fuel = Nat.digits 10 n := by
  intro fuel
  induction fuel with
  | zero =>
    intro n hn
    interval_cases n
    simp [decDigitsAux]
  | succ f ih =>
    intro n hn
    cases n with
    | zero => simp [decDigitsAux]
    | succ m =>
      rw [decDigitsAux]
      rw [Nat.digits_def' (by norm_num) (Nat.succ_pos m)]
      congr 1
      exact ih _ (by omega)

theorem decDigitsBE_eq (n : ℕ) :
    decDigitsBE n = if n = 0 then [0] else (Nat.digits 10 n).reverse := by
  unfold decDigitsBE
  by_cases h : n = 0
  · simp [h]
  · simp [h, decDigitsAux_eq n n (le_refl n)]

theorem valueBE_acc (ds : List ℕ) : ∀ a : ℕ,
    ds.foldl (fun x d => x * 10 + d) a = a * 10 ^ ds.length + valueBE ds := by
  induction ds with
  | nil => intro a; simp [valueBE]
  | cons d ds ih =>
    intro a
    have hv : valueBE (d :: ds) = d * 10 ^ ds.length + valueBE ds := by
      show List.foldl _ (0 * 10 + d) ds = _
      rw [ih (0 * 10 + d)]
      ring
    simp only [List.foldl_cons, List.length_cons, hv, ih (a * 10 + d)]
    ring

theorem valueBE_cons (d : ℕ) (ds : List ℕ) :
    valueBE (d :: ds) = d * 10 ^ ds.length + valueBE ds := by
  show List.foldl _ (0 * 10 + d) ds = _
  rw [valueBE_acc ds (0 * 10 + d)]
  ring

theorem valueBE_lt (ds : List ℕ) (h : ∀ d ∈ ds, d < 10) :
    valueBE ds < 10 ^ ds.length := by
  induction ds with
  | nil => simp [valueBE]
  | cons d ds ih =>
    rw [valueBE_cons]
    have hd : d < 10 := h d (List.mem_cons_self d ds)
    have hds := ih fun x hx => h x (List.mem_cons_of_mem d hx)
    have : (d + 1) * 10 ^ ds.length ≤ 10 * 10 ^ ds.length :=
      Nat.mul_le_mul_right _ (by omega)
    calc d * 10 ^ ds.length + valueBE ds < d * 10 ^ ds.length + 10 ^ ds.length := by omega
    _ = (d + 1) * 10 ^ ds.length := by ring
    _ ≤ 10 * 10 ^ ds.length := this
    _ = 10 ^ (ds.length + 1) := by ring
    _ = 10 ^ (d :: ds).length := by rw [List.length_cons]

theorem valueBE_reverse_digits (n : ℕ) : valueBE ((Nat.digits 10 n).reverse) = n := by
  induction n using Nat.strong_induction_on with
  | _ n ih =>
    cases n with
    | zero => simp [valueBE]
    | succ m =>
      rw [Nat.digits_def' (by norm_num) (Nat.succ_pos m)]
      rw [List.reverse_cons]
      unfold valueBE
      rw [List.foldl_append]
      have hrec := ih ((m + 1) / 10) (Nat.div_lt_self (Nat.succ_pos m) (by norm_num))
      unfold valueBE at hrec
      rw [hrec]
      simp only [List.foldl_cons, List.foldl_nil]
      omega

theorem valueBE_decDigitsBE (n : ℕ) : valueBE (decDigitsBE n) = n := by
  rw [decDigitsBE_eq]
  by_cases h : n = 0
  · simp [h, valueBE]
  · rw [if_neg h]
    exact valueBE_reverse_digits n

theorem decDigitsBE_lt_ten (n : ℕ) : ∀ d ∈ decDigitsBE n, d < 10 := by
  rw [decDigitsBE_eq]
  by_cases h : n = 0
  · simp [h]
  · rw [if_neg h]
    intro d hd
    exact Nat.digits_lt_base (by norm_num) (List.mem_reverse.mp hd)

theorem digitChar_toNat_lt : ∀ a < 10, ∀ b < 10,
    a < b → (Nat.digitChar a).toNat < (Nat.digitChar b).toNat := by decide

theorem digitChar_toNat_inj : ∀ a < 10, ∀ b < 10,
    (Nat.digitChar a).toNat = (Nat.digitChar b).toNat → a = b := by decide

theorem lexLt_digits : ∀ ds1 ds2 : List ℕ, (∀ d ∈ ds1, d < 10) → (∀ d ∈ ds2, d < 10) →
    ds1.length = ds2.length → valueBE ds1 < valueBE ds2 →
    lexLt (ds1.map Nat.digitChar) (ds2.map Nat.digitChar) = true := by
  intro ds1
  induction ds1 with
  | nil =>
    intro ds2 h1 h2 hlen hv
    cases ds2 with
    | nil => simp [valueBE] at hv
    | cons b bs => simp at hlen
  | cons a as ih =>
    intro ds2 h1 h2 hlen hv
    cases ds2 with
    | nil => simp at hlen
    | cons b bs =>
      have hlen' : as.length = bs.length := by simpa using hlen
      have ha : a < 10 := h1 a (List.mem_cons_self a as)
      have hb : b < 10 := h2 b (List.mem_cons_self b bs)
      rcases lt_trichotomy a b with hab | hab | hab
      · have hc := digitChar_toNat_lt a ha b hb hab
        simp [lexLt, hc]
      · subst hab
        rw [valueBE_cons, valueBE_cons, hlen'] at hv
        have hvtail : valueBE as < valueBE bs := by omega
        have htail := ih bs (fun d hd => h1 d (List.mem_cons_of_mem a hd))
          (fun d hd => h2 d (List.mem_cons_of_mem a hd)) hlen' hvtail
        simp [lexLt, Nat.lt_irrefl, htail]
      · exfalso
        rw [valueBE_cons, valueBE_cons, hlen'] at hv
        have hvb := valueBE_lt bs fun d hd => h2 d (List.mem_cons_of_mem b hd)
        have hm : (b + 1) * 10 ^ bs.length ≤ a * 10 ^ bs.length :=
          Nat.mul_le_mul_right _ (by omega)
        have hexp : (b + 1) * 10 ^ bs.length = b * 10 ^ bs.length + 10 ^ bs.length := by ring
        omega

theorem natStr_lt (m1 m2 : ℕ) (h : m1 < m2)
    (hlen : (decDigitsBE m1).length = (decDigitsBE m2).length) :
    lexLt (natStr m1).data (natStr m2).data = true := by
  show lexLt ((decDigitsBE m1).map Nat.digitChar) ((decDigitsBE m2).map Nat.digitChar) = true
  apply lexLt_digits _ _ (decDigitsBE_lt_ten m1) (decDigitsBE_lt_ten m2) hlen
  rw [valueBE_decDigitsBE, valueBE_decDigitsBE]
  exact h

theorem lexLt_append (p : List Char) (x y : List Char) :
    lexLt (p ++ x) (p ++ y) = lexLt x y := by
  induction p with
  | nil => rfl
  | cons c cs ih =>
    show lexLt (c :: (cs ++ x)) (c :: (cs ++ y)) = lexLt x y
    rw [lexLt]
    rw [if_neg (Nat.lt_irrefl _), if_neg (Nat.lt_irrefl _)]
    exact ih

theorem lexLt_irrefl : ∀ l : List Char, lexLt l l = false := by
  intro l
  induction l with
  | nil => rfl
  | cons c cs ih =>
    rw [lexLt]
    rw [if_neg (Nat.lt_irrefl _), if_neg (Nat.lt_irrefl _)]
    exact ih

theorem timerIdOf_lt (t1 t2 : ℚ) (h0 : 0 ≤ msOf t1) (h : msOf t1 < msOf t2)
    (hlen : (decDigitsBE (msOf t1).toNat).length = (decDigitsBE (msOf t2).toNat).length) :
    pyStrLt (timerIdOf t1) (timerIdOf t2) = true := by
  unfold pyStrLt timerIdOf intStr
  rw [if_neg (by omega : ¬ msOf t1 < 0), if_neg (by omega : ¬ msOf t2 < 0)]
  rw [String.data_append, String.data_append, lexLt_append]
  exact natStr_lt _ _ (by omega) hlen

theorem lookup_dictInsert_self {β : Type} (k : String) (v : β) :
    ∀ l : List (String × β), ((dictInsert k v l).lookup k) = some v := by
  intro l
  induction l with
  | nil => simp [dictInsert, List.lookup]
  | cons kv rest ih =>
    obtain ⟨k', v'⟩ := kv
    by_cases h : k' = k
    · simp [dictInsert, h, List.lookup]
    · have hb : (k == k') = false := beq_eq_false_iff_ne.mpr fun he => h he.symm
      simp [dictInsert, h, List.lookup, hb, ih]

theorem lookup_dictInsert_ne {β : Type} (k k2 : String) (hne : k2 ≠ k) (v : β) :
    ∀ l : List (String × β), ((dictInsert k v l).lookup k2) = l.lookup k2 := by
  intro l
  have hb0 : (k2 == k) = false := beq_eq_false_iff_ne.mpr hne
  induction l with
  | nil => simp [dictInsert, List.lookup, hb0]
  | cons kv rest ih =>
    obtain ⟨k', v'⟩ := kv
    by_cases h : k' = k
    · subst h
      simp [dictInsert, List.lookup, hb0]
    · by_cases h2 : k2 = k'
      · subst h2
        simp [dictInsert, h, List.lookup]
      · have hb2 : (k2 == k') = false := beq_eq_false_iff_ne.mpr h2
        simp [dictInsert, h, List.lookup, hb2, ih]

/-- Counterexample for C9: two `add_timer` calls in the same millisecond
(instants 0 and 1/2000 s) mint the *same* id, and the second insert
overwrites the first, leaving a single timer in the map; moreover with
milliseconds 999 and 1000 (instants 999/1000 and 1) the later id
`"timer_1000"` sorts strictly *before* the earlier id `"timer_999"` in
Python's lexicographic string order, so sorting ids does not generally
yield creation order. -/
theorem claim_C9_counterexample :
    ((addTimer (wSession 1) "a" 60 0).2.id =
        (addTimer (addTimer (wSession 1) "a" 60 0).1 "b" 90 (1/2000)).2.id ∧
      (addTimer (addTimer (wSession 1) "a" 60 0).1 "b" 90 (1/2000)).1.timers.length = 1) ∧
    pyStrLt (timerIdOf (999/1000)) (timerIdOf 1) = false ∧
    pyStrLt (timerIdOf 1) (timerIdOf (999/1000)) = true := by
  have hms1 : msOf (0 : ℚ) = 0 := by
    unfold msOf
    rw [show (0 : ℚ) * 1000 = ((0 : ℤ) : ℚ) by norm_num, pyInt_intCast]
  have hms2 : msOf (1/2000 : ℚ) = 0 := by
    unfold msOf
    rw [show (1/2000 : ℚ) * 1000 = (1/2 : ℚ) by norm_num]
    rw [pyInt_eq_floor _ (by norm_num)]
    norm_num
  have hms3 : msOf (999/1000 : ℚ) = 999 := by
    unfold msOf
    rw [show (999/1000 : ℚ) * 1000 = ((999 : ℤ) : ℚ) by norm_num, pyInt_intCast]
  have hms4 : msOf (1 : ℚ) = 1000 := by
    unfold msOf
    rw [show (1 : ℚ) * 1000 = ((1000 : ℤ) : ℚ) by norm_num, pyInt_intCast]
  have htid1 : timerIdOf 0 = "timer_0" := by
    unfold timerIdOf
    rw [hms1]
    rfl
  have htid2 : timerIdOf (1/2000) = "timer_0" := by
    unfold timerIdOf
    rw [hms2]
    rfl
  have htid3 : timerIdOf (999/1000) = "timer_999" := by
    unfold timerIdOf
    rw [hms3]
    rfl
  have htid4 : timerIdOf (1 : ℚ) = "timer_1000" := by
    unfold timerIdOf
    rw [hms4]
    rfl
  refine ⟨⟨?_, ?_⟩, ?_, ?_⟩
  · show timerIdOf 0 = timerIdOf (1/2000)
    rw [htid1, htid2]
  · show (dictInsert (timerIdOf (1/2000)) _ (dictInsert (timerIdOf 0) _ [])).length = 1
    rw [htid1, htid2]
    rfl
  · rw [htid3, htid4]
    decide
  · rw [htid3, htid4]
    decide

/-- C9 (amended): for two `add_timer` calls whose creation instants fall
in distinct milliseconds (`int(t*1000)` strictly increasing, nonnegative)
whose decimal representations have equal length, the minted ids are
distinct, both timers are present in the session's timer map afterwards,
and the ids sort (Python string order) in creation order. Without these
provisos the property fails: see the counterexample for same-millisecond
calls and for millisecond counts of different digit lengths. -/
theorem claim_C9_timer_ids (s : CookingSession) (label1 label2 : String)
    (sec1 sec2 : ℤ) (t1 t2 : ℚ)
    (h0 : 0 ≤ msOf t1) (hms : msOf t1 < msOf t2)
    (hlen : (decDigitsBE (msOf t1).toNat).length = (decDigitsBE (msOf t2).toNat).length) :
    (addTimer s label1 sec1 t1).2.id ≠
        (addTimer (addTimer s label1 sec1 t1).1 label2 sec2 t2).2.id ∧
    ((addTimer (addTimer s label1 sec1 t1).1 label2 sec2 t2).1.timers.lookup
        (addTimer s label1 sec1 t1).2.id) = some (addTimer s label1 sec1 t1).2 ∧
    ((addTimer (addTimer s label1 sec1 t1).1 label2 sec2 t2).1.timers.lookup
        (addTimer (addTimer s label1 sec1 t1).1 label2 sec2 t2).2.id) =
      some (addTimer (addTimer s label1 sec1 t1).1 label2 sec2 t2).2 ∧
    pyStrLt (addTimer s label1 sec1 t1).2.id
        (addTimer (addTimer s label1 sec1 t1).1 label2 sec2 t2).2.id = true := by
  have hlt := timerIdOf_lt t1 t2 h0 hms hlen
  have hne : timerIdOf t1 ≠ timerIdOf t2 := by
    intro he
    rw [he] at hlt
    rw [show pyStrLt (timerIdOf t2) (timerIdOf t2) =
      lexLt (timerIdOf t2).data (timerIdOf t2).data from rfl] at hlt
    rw [lexLt_irrefl] at hlt
    exact Bool.false_ne_true hlt
  refine ⟨hne, ?_, ?_, hlt⟩
  · show (dictInsert (timerIdOf t2) _ (dictInsert (timerIdOf t1) _ s.timers)).lookup
      (timerIdOf t1) = _
    rw [lookup_dictInsert_ne _ _ hne, lookup_dictInsert_self]
    rfl
  · show (dictInsert (timerIdOf t2) _ (dictInsert (timerIdOf t1) _ s.timers)).lookup
      (timerIdOf t2) = _
    rw [lookup_dictInsert_self]
    rfl

/-- Witness for C9 (amended): adds at instants 1 s and 2 s (milliseconds
1000 and 2000, same digit length) mint distinct ids that sort in creation
order. -/
theorem claim_C9_witness :
    (addTimer (wSession 1) "a" 60 1).2.id ≠
        (addTimer (addTimer (wSession 1) "a" 60 1).1 "b" 90 2).2.id ∧
    pyStrLt (addTimer (wSession 1) "a" 60 1).2.id
        (addTimer (addTimer (wSession 1) "a" 60 1).1 "b" 90 2).2.id = true := by
  have hms1 : msOf (1 : ℚ) = 1000 := by
    unfold msOf
    rw [show (1 : ℚ) * 1000 = ((1000 : ℤ) : ℚ) by norm_num, pyInt_intCast]
  have hms2 : msOf (2 : ℚ) = 2000 := by
    unfold msOf
    rw [show (2 : ℚ) * 1000 = ((2000 : ℤ) : ℚ) by norm_num, pyInt_intCast]
  have h := claim_C9_timer_ids (wSession 1) "a" "b" 60 90 1 2
    (by rw [hms1]; norm_num) (by rw [hms1, hms2]; norm_num)
    (by rw [hms1, hms2]; decide)
  exact ⟨h.1, h.2.2.2⟩
